import Mathlib

/-!
Verification of the windowed raster zonal-statistics and raster-alignment
pipeline (scripts 2, 5, 6 and 9 of the repository) against its
natural-language specification.

The Python scripts are embedded shallowly:

* pixel windows and the chunked partition loop of
  `2_procesar_ndvi_por_categoria.py` / `6_recortar_mnc_y_combinar.py`
  become computable Lean functions over `Nat`;
* affine transforms and the window/bounds conversions of `rasterio`
  (`windows.bounds`, `windows.from_bounds`, `round_lengths`,
  `round_offsets`) are embedded over `ℚ` (machine floats are modelled by
  exact rationals; a NaN-able float is `Option ℚ` with `none` as NaN);
* `numpy.empty` is modelled as a function of the pre-existing memory
  contents, which is what an uninitialized allocation exposes;
* `rasterio.windows.intersect` is embedded with its real signature: it is
  a predicate returning a Python `bool`; attribute access `.width` on that
  bool is a dynamic `AttributeError`, modelled by an `Except` value.
-/

set_option maxHeartbeats 1600000

namespace AdeModelo

/-! ## Pixel values

A numpy float32 cell is modelled as `Option ℚ`: `none` is NaN, `some q`
a finite value.  (The scripts never rely on infinities or on float
rounding; all arithmetic they perform is exact on the inputs considered.) -/

abbrev Pix := Option ℚ

/-! ## Grid window partitioner

From `2_procesar_ndvi_por_categoria.py`, lines 119-147 (and the identical
loop of `6_recortar_mnc_y_combinar.py`, lines 114-148):

    n_chunks_h = (height + chunk_size - 1) // chunk_size
    n_chunks_w = (width + chunk_size - 1) // chunk_size
    for i in range(n_chunks_h):
        for j in range(n_chunks_w):
            row_start = i * chunk_size
            row_end = min((i + 1) * chunk_size, height)
            col_start = j * chunk_size
            col_end = min((j + 1) * chunk_size, width)
            if row_end <= row_start or col_end <= col_start:
                pbar.update(1)
                continue
            window = Window(col_start, row_start, col_end - col_start, row_end - row_start)
-/

/-- A produced window, as the quadruple
`(row_start, row_end, col_start, col_end)` of the source loops. -/
structure Win where
  rowStart : ℕ
  rowEnd : ℕ
  colStart : ℕ
  colEnd : ℕ
  deriving DecidableEq, Repr

/-- `n_chunks_h = (height + chunk_size - 1) // chunk_size` (Python floor
division; equals `⌈height / chunk_size⌉` for positive `chunk_size`). -/
def nChunks (extent chunk : ℕ) : ℕ := (extent + chunk - 1) / chunk

/-- The window of chunk indices `(i, j)`; `min` truncates the last
row/column to the raster edge exactly as the source's `min(...)` calls. -/
def mkWin (height width chunk i j : ℕ) : Win :=
  { rowStart := i * chunk
    rowEnd := min ((i + 1) * chunk) height
    colStart := j * chunk
    colEnd := min ((j + 1) * chunk) width }

/-- The guard `if row_end <= row_start or col_end <= col_start: continue`
of the source: a zero-extent window is dropped (`none`), not an error. -/
def emitWin (height width chunk i j : ℕ) : Option Win :=
  let w := mkWin height width chunk i j
  if w.rowEnd ≤ w.rowStart ∨ w.colEnd ≤ w.colStart then none else some w

/-- The full partition sequence: the two nested `for` loops in row-major
order, with the zero-extent guard applied to each candidate window. -/
def partitionWins (height width chunk : ℕ) : List Win :=
  ((List.range (nChunks height chunk)).flatMap fun i =>
    (List.range (nChunks width chunk)).map fun j => (i, j)).filterMap
    fun ij => emitWin height width chunk ij.1 ij.2

/-- Membership of pixel `(r, c)` in a window's half-open pixel rectangle. -/
def memWin (r c : ℕ) (w : Win) : Prop :=
  w.rowStart ≤ r ∧ r < w.rowEnd ∧ w.colStart ≤ c ∧ c < w.colEnd

instance (r c : ℕ) (w : Win) : Decidable (memWin r c w) := by
  unfold memWin; infer_instance

/-! Arithmetic helper lemmas about the ceil-division chunk count. -/

lemma chunk_mul_lt_of_lt_nChunks {h c i : ℕ} (hc : 0 < c)
    (hi : i < nChunks h c) : i * c < h := by
  unfold nChunks at hi
  have h1 : (i + 1) * c ≤ (h + c - 1) / c * c := by
    exact Nat.mul_le_mul_right c hi
  have h2 : (h + c - 1) / c * c ≤ h + c - 1 := Nat.div_mul_le_self _ _
  have h3 : i * c + c ≤ h + c - 1 := by
    have he : (i + 1) * c = i * c + c := by ring
    omega
  omega

lemma lt_nChunks_of_lt {h c r : ℕ} (hc : 0 < c) (hr : r < h) :
    r / c < nChunks h c := by
  unfold nChunks
  have hh : 0 < h := Nat.pos_of_ne_zero (by omega)
  have he : h + c - 1 = (h - 1) + c := by omega
  rw [he, Nat.add_div_right _ hc]
  have : r / c ≤ (h - 1) / c := Nat.div_le_div_right (by omega)
  omega

/-- For positive inputs, no candidate window has zero extent: the
skip guard never fires. -/
lemma emitWin_eq_some {h w c : ℕ} (hc : 0 < c) {i j : ℕ}
    (hi : i < nChunks h c) (hj : j < nChunks w c) :
    emitWin h w c i j = some (mkWin h w c i j) := by
  unfold emitWin
  have h1 : i * c < h := chunk_mul_lt_of_lt_nChunks hc hi
  have h2 : j * c < w := chunk_mul_lt_of_lt_nChunks hc hj
  have h3 : i * c < min ((i + 1) * c) h := by
    have : i * c < (i + 1) * c := by nlinarith
    omega
  have h4 : j * c < min ((j + 1) * c) w := by
    have : j * c < (j + 1) * c := by nlinarith
    omega
  simp only [mkWin]
  rw [if_neg]
  push_neg
  exact ⟨h3, h4⟩

lemma filterMap_eq_map_of_forall {α β : Type} {l : List α} {f : α → Option β}
    {g : α → β} (h : ∀ x ∈ l, f x = some (g x)) : l.filterMap f = l.map g := by
  induction l with
  | nil => rfl
  | cons a l ih =>
      simp only [List.filterMap_cons, List.map_cons, h a (by simp)]
      rw [ih fun x hx => h x (by simp [hx])]

/-- Reindexing of the two nested loops: iterating `i` over `range n` and
`j` over `range m` in row-major order is iterating a flat index `k` over
`range (n * m)` with `i = k / m`, `j = k % m`. -/
lemma flatMap_range_eq_map_range {β : Type} (n m : ℕ) (hm : 0 < m)
    (F : ℕ → ℕ → β) :
    ((List.range n).flatMap fun i => (List.range m).map fun j => F i j) =
      (List.range (n * m)).map fun k => F (k / m) (k % m) := by
  induction n with
  | zero => simp
  | succ n ih =>
      rw [List.range_succ, List.flatMap_append, ih]
      have hr : n * m + m = (n + 1) * m := by ring
      rw [Nat.succ_mul, List.range_add, List.map_append, List.map_map]
      congr 1
      simp only [List.flatMap_cons, List.flatMap_nil, List.append_nil]
      apply List.map_congr_left
      intro j hj
      have hjm : j < m := List.mem_range.mp hj
      have hdiv : (n * m + j) / m = n := by
        rw [Nat.add_comm, Nat.add_mul_div_right _ _ hm, Nat.div_eq_of_lt hjm]
        omega
      have hmod : (n * m + j) % m = j := by
        rw [Nat.add_comm, Nat.add_mul_mod_self_right, Nat.mod_eq_of_lt hjm]
      simp [Function.comp, hdiv, hmod]

/-- For positive inputs the partition is the row-major enumeration of all
`nChunks h c * nChunks w c` truncated windows. -/
lemma partitionWins_eq_map {h w c : ℕ} (hh : 0 < h) (hw : 0 < w)
    (hc : 0 < c) :
    partitionWins h w c =
      (List.range (nChunks h c * nChunks w c)).map fun k =>
        mkWin h w c (k / nChunks w c) (k % nChunks w c) := by
  have hnw : 0 < nChunks w c := by
    have := lt_nChunks_of_lt (r := 0) hc hw
    simpa using this
  have hnh : 0 < nChunks h c := by
    have := lt_nChunks_of_lt (r := 0) hc hh
    simpa using this
  unfold partitionWins
  rw [flatMap_range_eq_map_range _ _ hnw]
  rw [filterMap_eq_map_of_forall (g := fun ij => mkWin h w c ij.1 ij.2)]
  · rw [List.map_map]; rfl
  · intro x hx
    simp only [List.mem_map, List.mem_range] at hx
    obtain ⟨k, hk, rfl⟩ := hx
    exact emitWin_eq_some hc
      (Nat.div_lt_of_lt_mul (by rw [Nat.mul_comm]; exact hk))
      (Nat.mod_lt _ hnw)

/-- Pixel `(r, c)` lies in the window of chunk indices `(r / chunk, c / chunk)`. -/
lemma memWin_mkWin {h w c r cc : ℕ} (hc : 0 < c) (hr : r < h)
    (hcc : cc < w) : memWin r cc (mkWin h w c (r / c) (cc / c)) := by
  unfold memWin mkWin
  refine ⟨Nat.div_mul_le_self r c, ?_, Nat.div_mul_le_self cc c, ?_⟩
  · have hdm := Nat.div_add_mod r c
    have hml := Nat.mod_lt r hc
    have hexp : (r / c + 1) * c = c * (r / c) + c := by ring
    rw [lt_min_iff]
    exact ⟨by omega, hr⟩
  · have hdm := Nat.div_add_mod cc c
    have hml := Nat.mod_lt cc hc
    have hexp : (cc / c + 1) * c = c * (cc / c) + c := by ring
    rw [lt_min_iff]
    exact ⟨by omega, hcc⟩

/-- Conversely, membership in the `(i, j)` window forces `i = r / c` and
`j = cc / c`: windows of distinct chunk indices are disjoint. -/
lemma memWin_inj {h w c r cc i j : ℕ}
    (hm : memWin r cc (mkWin h w c i j)) : i = r / c ∧ j = cc / c := by
  obtain ⟨h1, h2, h3, h4⟩ := hm
  unfold mkWin at h1 h2 h3 h4
  simp only at h1 h2 h3 h4
  constructor
  · have hlt : r < (i + 1) * c := lt_of_lt_of_le h2 (min_le_left _ _)
    have : r / c = i := by
      apply Nat.div_eq_of_lt_le
      · simpa [Nat.mul_comm] using h1
      · simpa [Nat.mul_comm] using hlt
    omega
  · have hlt : cc < (j + 1) * c := lt_of_lt_of_le h4 (min_le_left _ _)
    have : cc / c = j := by
      apply Nat.div_eq_of_lt_le
      · simpa [Nat.mul_comm] using h3
      · simpa [Nat.mul_comm] using hlt
    omega

/-- The full correctness property of the window partitioner claimed by the
spec: exact count `ceil(h/c) * ceil(w/c)`, row-major deterministic order
(the `k`-th emitted window is the one of chunk indices
`(k / nChunksW, k % nChunksW)`), positive extent of every emitted window
(zero-extent candidates are skipped by a no-op and none arise for positive
inputs), truncation to the raster edge, pairwise disjointness, and exact
coverage of `[0,h) × [0,w)`. -/
def PartitionCorrect (h w c : ℕ) : Prop :=
  (partitionWins h w c).length = nChunks h c * nChunks w c ∧
  (∀ k, k < nChunks h c * nChunks w c →
    (partitionWins h w c)[k]? =
      some (mkWin h w c (k / nChunks w c) (k % nChunks w c))) ∧
  (∀ win ∈ partitionWins h w c,
    win.rowStart < win.rowEnd ∧ win.colStart < win.colEnd) ∧
  (∀ win ∈ partitionWins h w c, win.rowEnd ≤ h ∧ win.colEnd ≤ w) ∧
  (∀ k1 k2 : ℕ, k1 ≠ k2 →
    ∀ w1 w2, (partitionWins h w c)[k1]? = some w1 →
      (partitionWins h w c)[k2]? = some w2 →
      ∀ r cc, ¬(memWin r cc w1 ∧ memWin r cc w2)) ∧
  (∀ r cc, r < h → cc < w → ∃ win ∈ partitionWins h w c, memWin r cc win)

/-- **C1**: for every positive height, width and chunk size, the window
partitioner of `2_procesar_ndvi_por_categoria.py` (lines 119-147) and
`6_recortar_mnc_y_combinar.py` (lines 114-148) produces exactly
`ceil(height/chunk) * ceil(width/chunk)` windows in row-major order,
truncated at the raster edge, pairwise disjoint, covering exactly
`[0,height) × [0,width)`; zero-extent windows are skipped with a no-op and
the sequence is a deterministic function of the inputs. -/
theorem partition_covers_exactly (h w c : ℕ) (hh : 0 < h) (hw : 0 < w)
    (hc : 0 < c) : PartitionCorrect h w c := by
  have hnw : 0 < nChunks w c := by
    have := lt_nChunks_of_lt (r := 0) hc hw
    simpa using this
  have hmap := partitionWins_eq_map hh hw hc
  have hlen : (partitionWins h w c).length = nChunks h c * nChunks w c := by
    rw [hmap]; simp
  have hget : ∀ k, k < nChunks h c * nChunks w c →
      (partitionWins h w c)[k]? =
        some (mkWin h w c (k / nChunks w c) (k % nChunks w c)) := by
    intro k hk
    rw [hmap, List.getElem?_map, List.getElem?_range hk]
    rfl
  have hmem : ∀ win ∈ partitionWins h w c, ∃ i j,
      i < nChunks h c ∧ j < nChunks w c ∧ win = mkWin h w c i j := by
    intro win hwin
    rw [hmap] at hwin
    simp only [List.mem_map, List.mem_range] at hwin
    obtain ⟨k, hk, rfl⟩ := hwin
    exact ⟨k / nChunks w c, k % nChunks w c,
      Nat.div_lt_of_lt_mul (by rw [Nat.mul_comm]; exact hk),
      Nat.mod_lt _ hnw, rfl⟩
  refine ⟨hlen, hget, ?_, ?_, ?_, ?_⟩
  · intro win hwin
    obtain ⟨i, j, hi, hj, rfl⟩ := hmem win hwin
    have h1 : i * c < h := chunk_mul_lt_of_lt_nChunks hc hi
    have h2 : j * c < w := chunk_mul_lt_of_lt_nChunks hc hj
    constructor
    · show i * c < min ((i + 1) * c) h
      rw [lt_min_iff]
      exact ⟨by nlinarith, h1⟩
    · show j * c < min ((j + 1) * c) w
      rw [lt_min_iff]
      exact ⟨by nlinarith, h2⟩
  · intro win hwin
    obtain ⟨i, j, hi, hj, rfl⟩ := hmem win hwin
    exact ⟨min_le_right _ _, min_le_right _ _⟩
  · intro k1 k2 hne w1 w2 hw1 hw2 r cc hboth
    have hk1 : k1 < nChunks h c * nChunks w c := by
      by_contra hk
      rw [hmap, List.getElem?_map] at hw1
      rw [List.getElem?_eq_none] at hw1
      · simp at hw1
      · simpa using Nat.le_of_not_lt hk
    have hk2 : k2 < nChunks h c * nChunks w c := by
      by_contra hk
      rw [hmap, List.getElem?_map] at hw2
      rw [List.getElem?_eq_none] at hw2
      · simp at hw2
      · simpa using Nat.le_of_not_lt hk
    rw [hget k1 hk1] at hw1
    rw [hget k2 hk2] at hw2
    obtain ⟨hm1, hm2⟩ := hboth
    rw [Option.some_inj] at hw1 hw2
    subst hw1
    subst hw2
    obtain ⟨e1, e2⟩ := memWin_inj hm1
    obtain ⟨e3, e4⟩ := memWin_inj hm2
    apply hne
    have hd : k1 / nChunks w c = k2 / nChunks w c := by omega
    have hm : k1 % nChunks w c = k2 % nChunks w c := by omega
    have t1 := Nat.div_add_mod k1 (nChunks w c)
    have t2 := Nat.div_add_mod k2 (nChunks w c)
    have : nChunks w c * (k1 / nChunks w c) = nChunks w c * (k2 / nChunks w c) := by
      rw [hd]
    omega
  · intro r cc hr hcc
    refine ⟨mkWin h w c (r / c) (cc / c), ?_, memWin_mkWin hc hr hcc⟩
    rw [hmap]
    simp only [List.mem_map, List.mem_range]
    refine ⟨r / c * nChunks w c + cc / c, ?_, ?_⟩
    · have hi : r / c < nChunks h c := lt_nChunks_of_lt hc hr
      have hj : cc / c < nChunks w c := lt_nChunks_of_lt hc hcc
      calc r / c * nChunks w c + cc / c
          < r / c * nChunks w c + nChunks w c := by omega
        _ = (r / c + 1) * nChunks w c := by ring
        _ ≤ nChunks h c * nChunks w c := Nat.mul_le_mul_right _ hi
    · have hj : cc / c < nChunks w c := lt_nChunks_of_lt hc hcc
      have hd : (r / c * nChunks w c + cc / c) / nChunks w c = r / c := by
        rw [Nat.add_comm, Nat.add_mul_div_right _ _ hnw,
          Nat.div_eq_of_lt hj]
        omega
      have hm : (r / c * nChunks w c + cc / c) % nChunks w c = cc / c := by
        rw [Nat.add_comm, Nat.add_mul_mod_self_right, Nat.mod_eq_of_lt hj]
      rw [hd, hm]

/-- Witness for `partition_covers_exactly` at the concrete input
`height = 5`, `width = 7`, `chunk_size = 3`. -/
theorem partition_covers_exactly_witness :
    0 < 5 ∧ 0 < 7 ∧ 0 < 3 ∧ PartitionCorrect 5 7 3 :=
  ⟨by norm_num, by norm_num, by norm_num,
    partition_covers_exactly 5 7 3 (by norm_num) (by norm_num) (by norm_num)⟩

/-! ## Window georeferencing

Embedding of the `rasterio` affine machinery the scripts lean on, over
exact rationals:

* `Affine a b c d e f` is rasterio's `Affine`: pixel `(col, row)` maps to
  `x = a*col + b*row + c`, `y = d*col + e*row + f`;
* `windowBounds` is `rasterio.windows.bounds` (script 2 line 153, script 6
  line 157): the two corners `(col_off, row_off)` and
  `(col_off+width, row_off+height)` pushed through the transform;
* `fromBounds` is `rasterio.windows.from_bounds` (script 2 line 175,
  script 6 line 162): the corner points `(left, top)` and
  `(right, bottom)` pulled back through the inverse transform, then
  min/max-normalised into a float window;
* `roundLengths` / `roundOffsets` are `Window.round_lengths()` /
  `Window.round_offsets()` (script 2 line 185, script 6 line 163),
  modelled with `floor`; at the integral values arising in the round-trip
  theorem every rounding mode coincides with `floor`. -/

structure Affine where
  a : ℚ
  b : ℚ
  c : ℚ
  d : ℚ
  e : ℚ
  f : ℚ
  deriving DecidableEq, Repr

/-- Forward application: pixel `(col, row)` to geographic `(x, y)`. -/
def Affine.fwd (T : Affine) (col row : ℚ) : ℚ × ℚ :=
  (T.a * col + T.b * row + T.c, T.d * col + T.e * row + T.f)

/-- Determinant of the linear part. -/
def Affine.det (T : Affine) : ℚ := T.a * T.e - T.b * T.d

/-- Column index of the inverse transform (`~transform * (x, y)`). -/
def Affine.invCol (T : Affine) (x y : ℚ) : ℚ :=
  (T.e * (x - T.c) - T.b * (y - T.f)) / T.det

/-- Row index of the inverse transform (`~transform * (x, y)`). -/
def Affine.invRow (T : Affine) (x y : ℚ) : ℚ :=
  (-T.d * (x - T.c) + T.a * (y - T.f)) / T.det

/-- A geographic bounding box `(left, bottom, right, top)`. -/
structure Bounds where
  left : ℚ
  bottom : ℚ
  right : ℚ
  top : ℚ
  deriving DecidableEq, Repr

/-- A pixel-space window with rational (float) offsets and lengths, as
`rasterio.windows.Window(col_off, row_off, width, height)`. -/
structure FWindow where
  colOff : ℚ
  rowOff : ℚ
  width : ℚ
  height : ℚ
  deriving DecidableEq, Repr

/-- An integral window (the reference windows of the chunk loop). -/
structure NWindow where
  colOff : ℕ
  rowOff : ℕ
  width : ℕ
  height : ℕ
  deriving DecidableEq, Repr

def NWindow.toF (w : NWindow) : FWindow :=
  { colOff := w.colOff, rowOff := w.rowOff, width := w.width,
    height := w.height }

/-- `rasterio.windows.bounds(window, transform)`: corners
`(col_off, row_off)` and `(col_off + width, row_off + height)` mapped
forward; returns `(left, bottom, right, top)`. -/
def windowBounds (w : NWindow) (T : Affine) : Bounds :=
  let lt := T.fwd w.colOff w.rowOff
  let rb := T.fwd (w.colOff + w.width) (w.rowOff + w.height)
  { left := lt.1, top := lt.2, right := rb.1, bottom := rb.2 }

/-- `rasterio.windows.from_bounds(left, bottom, right, top, transform)`:
fractional rows/cols of the corner points `(left, top)` and
`(right, bottom)`, normalised with min/max. -/
def fromBounds (bnds : Bounds) (T : Affine) : FWindow :=
  let row1 := T.invRow bnds.left bnds.top
  let row2 := T.invRow bnds.right bnds.bottom
  let col1 := T.invCol bnds.left bnds.top
  let col2 := T.invCol bnds.right bnds.bottom
  let rowStart := min row1 row2
  let rowStop := max row1 row2
  let colStart := min col1 col2
  let colStop := max col1 col2
  { colOff := colStart, rowOff := rowStart, width := colStop - colStart,
    height := rowStop - rowStart }

/-- `Window.round_lengths()`: width and height rounded to integers
(modelled with `floor`; identical to every rounding mode on integers). -/
def FWindow.roundLengths (w : FWindow) : FWindow :=
  { w with width := ⌊w.width⌋, height := ⌊w.height⌋ }

/-- `Window.round_offsets()`: offsets rounded to integers. -/
def FWindow.roundOffsets (w : FWindow) : FWindow :=
  { w with colOff := ⌊w.colOff⌋, rowOff := ⌊w.rowOff⌋ }

/-- The inverse transform recovers the pixel column from a forward-mapped
point, for any invertible affine transform. -/
lemma Affine.invCol_fwd (T : Affine) (hdet0 : T.det ≠ 0) (q r : ℚ) :
    T.invCol (T.fwd q r).1 (T.fwd q r).2 = q := by
  unfold Affine.invCol Affine.fwd
  rw [div_eq_iff hdet0]
  unfold Affine.det
  ring

/-- The inverse transform recovers the pixel row from a forward-mapped
point, for any invertible affine transform. -/
lemma Affine.invRow_fwd (T : Affine) (hdet0 : T.det ≠ 0) (q r : ℚ) :
    T.invRow (T.fwd q r).1 (T.fwd q r).2 = r := by
  unfold Affine.invRow Affine.fwd
  rw [div_eq_iff hdet0]
  unfold Affine.det
  ring

/-- **C8**: for every window `w` of a grid with a north-up rectilinear
transform `T` (no shear, positive pixel width, negative pixel height —
the grid geometry of all rasters in this pipeline), computing the
geographic bounds of `w` with `rasterio.windows.bounds` and converting
them back with `rasterio.windows.from_bounds` on the same grid, followed
by the scripts' `round_lengths().round_offsets()`, recovers `w` exactly
(script 2 lines 153-154 and 175-185, identity-CRS case). -/
theorem window_bounds_roundtrip (w : NWindow) (T : Affine)
    (hb : T.b = 0) (hd : T.d = 0) (ha : 0 < T.a) (he : T.e < 0) :
    ((fromBounds (windowBounds w T) T).roundLengths).roundOffsets =
      w.toF := by
  have hdet0 : T.det ≠ 0 := by
    unfold Affine.det
    rw [hb, hd]
    simpa using mul_ne_zero (ne_of_gt ha) (ne_of_lt he)
  obtain ⟨co, ro, wd, ht⟩ := w
  simp only [windowBounds, fromBounds]
  rw [T.invCol_fwd hdet0, T.invRow_fwd hdet0, T.invCol_fwd hdet0,
    T.invRow_fwd hdet0]
  have hminc : min (co : ℚ) ((co : ℚ) + (wd : ℚ)) = co := by
    apply min_eq_left
    have : (0 : ℚ) ≤ (wd : ℚ) := Nat.cast_nonneg _
    linarith
  have hmaxc : max (co : ℚ) ((co : ℚ) + (wd : ℚ)) = co + wd := by
    apply max_eq_right
    have : (0 : ℚ) ≤ (wd : ℚ) := Nat.cast_nonneg _
    linarith
  have hminr : min (ro : ℚ) ((ro : ℚ) + (ht : ℚ)) = ro := by
    apply min_eq_left
    have : (0 : ℚ) ≤ (ht : ℚ) := Nat.cast_nonneg _
    linarith
  have hmaxr : max (ro : ℚ) ((ro : ℚ) + (ht : ℚ)) = ro + ht := by
    apply max_eq_right
    have : (0 : ℚ) ≤ (ht : ℚ) := Nat.cast_nonneg _
    linarith
  rw [hminc, hmaxc, hminr, hmaxr]
  simp only [FWindow.roundLengths, FWindow.roundOffsets, NWindow.toF]
  have e1 : (co : ℚ) + (wd : ℚ) - co = (wd : ℚ) := by ring
  have e2 : (ro : ℚ) + (ht : ℚ) - ro = (ht : ℚ) := by ring
  rw [e1, e2]
  norm_num

/-- Witness for `window_bounds_roundtrip`: the window
`Window(col_off=3, row_off=4, width=5, height=6)` on the grid with
transform `(2, 0, 10, 0, -3, 50)`. -/
theorem window_bounds_roundtrip_witness :
    (2 : ℚ) > 0 ∧ (-3 : ℚ) < 0 ∧
      ((fromBounds (windowBounds ⟨3, 4, 5, 6⟩ ⟨2, 0, 10, 0, -3, 50⟩)
        ⟨2, 0, 10, 0, -3, 50⟩).roundLengths).roundOffsets =
        NWindow.toF ⟨3, 4, 5, 6⟩ :=
  ⟨by norm_num, by norm_num,
    window_bounds_roundtrip ⟨3, 4, 5, 6⟩ ⟨2, 0, 10, 0, -3, 50⟩ rfl rfl
      (by norm_num) (by norm_num)⟩

/-! ## Destination allocation before the reprojection write

Script 2 line 216 and script 6 lines 186 and 225 allocate the destination
of `rasterio.warp.reproject` with

    ndvi_chunk = np.empty((row_end - row_start, col_end - col_start), dtype=np.float32)

`numpy.empty` returns an **uninitialized** block: its contents are
whatever the backing memory held, not a fixed fill value.  It is modelled
as a function of that pre-existing memory. -/

/-- `np.empty(n)`: a buffer of `n` cells exposing the pre-existing memory
contents `mem` unchanged. -/
def npEmpty (n : ℕ) (mem : List ℚ) : List ℚ := mem.take n

/-- The scripts' destination-chunk allocation
`np.empty((row_end - row_start, col_end - col_start))`, flattened
row-major. -/
def allocDestChunk (rowStart rowEnd colStart colEnd : ℕ)
    (mem : List ℚ) : List ℚ :=
  npEmpty ((rowEnd - rowStart) * (colEnd - colStart)) mem

/-- The reprojection write into an existing destination buffer: cell `k`
is overwritten when the warp covers it (`writes k = some v`) and keeps the
buffer's prior contents otherwise (the partial-coverage case when no
nodata initialization applies). -/
def reprojectInto (dest : List ℚ) (writes : ℕ → Option ℚ) : List ℚ :=
  (List.range dest.length).map fun k => (writes k).getD (dest.getD k 0)

/-- **C2, counterexample**: the destination block handed to `reproject`
is *not* pre-filled with any neutral value — its contents depend on the
pre-existing memory (`np.empty` at script 2 line 216, script 6 lines
186/225): there is no value `v` such that the allocated 1×1 block always
reads `[v]`. -/
theorem alloc_dest_not_prefilled :
    ¬ ∃ v : ℚ, ∀ mem : List ℚ, mem.length = 1 →
      allocDestChunk 0 1 0 1 mem = [v] := by
  rintro ⟨v, hv⟩
  have h3 := hv [3] rfl
  have h4 := hv [4] rfl
  simp [allocDestChunk, npEmpty] at h3 h4
  linarith

/-- **C2, amended**: the destination block is allocated uninitialized by
`np.empty`: before the reprojection write it holds exactly the
pre-existing memory contents, and a destination cell not written by the
reprojection still holds that garbage value afterwards (not a neutral
fill). -/
theorem alloc_dest_uninitialized (rowStart rowEnd colStart colEnd : ℕ)
    (mem : List ℚ)
    (hlen : mem.length = (rowEnd - rowStart) * (colEnd - colStart))
    (writes : ℕ → Option ℚ) (k : ℕ) (hk : k < mem.length)
    (hw : writes k = none) :
    allocDestChunk rowStart rowEnd colStart colEnd mem = mem ∧
      (reprojectInto (allocDestChunk rowStart rowEnd colStart colEnd mem)
        writes).getD k 0 = mem.getD k 0 := by
  have halloc : allocDestChunk rowStart rowEnd colStart colEnd mem = mem := by
    unfold allocDestChunk npEmpty
    rw [← hlen]
    exact List.take_length mem
  refine ⟨halloc, ?_⟩
  rw [halloc]
  unfold reprojectInto
  rw [List.getD_eq_getElem?_getD, List.getElem?_map, List.getElem?_range hk]
  simp [hw]

/-- Witness for `alloc_dest_uninitialized`: a 1×2 destination with memory
contents `[5, 7]` and a warp that writes only cell 0; cell 1 keeps the
garbage value `7`. -/
theorem alloc_dest_uninitialized_witness :
    ([(5 : ℚ), 7].length = (1 - 0) * (2 - 0) ∧ 1 < [(5 : ℚ), 7].length ∧
        (fun k => if k = 0 then some (9 : ℚ) else none) 1 = none) ∧
      allocDestChunk 0 1 0 2 [(5 : ℚ), 7] = [(5 : ℚ), 7] ∧
        (reprojectInto (allocDestChunk 0 1 0 2 [(5 : ℚ), 7])
          (fun k => if k = 0 then some (9 : ℚ) else none)).getD 1 0 =
          [(5 : ℚ), 7].getD 1 0 :=
  ⟨⟨by norm_num, by norm_num, by norm_num⟩,
    alloc_dest_uninitialized 0 1 0 2 [(5 : ℚ), 7] (by norm_num)
      (fun k => if k = 0 then some (9 : ℚ) else none) 1 (by norm_num)
      (by norm_num)⟩

/-! ## Cross-grid nearest-neighbour resampling

Script 6 reprojects the categorical MNC rasters with
`resampling=Resampling.nearest` (lines 187-195 for invierno, 225-234 for
verano), while script 2 uses `Resampling.bilinear` for the continuous
NDVI.  Nearest-neighbour warping is modelled pixel-for-pixel: each
destination cell center is mapped through the destination transform and
the inverse source transform, and the containing source cell (floor of
the fractional index) supplies the value. -/

inductive Resampling where
  | nearest
  | bilinear
  deriving DecidableEq, Repr

/-- The `resampling=` argument of the invierno `reproject` call
(script 6 line 194). -/
def mncReprojResamplingInv : Resampling := Resampling.nearest

/-- The `resampling=` argument of the verano `reproject` call
(script 6 line 233). -/
def mncReprojResamplingVer : Resampling := Resampling.nearest

/-- A single-band raster block of exact cell values. -/
structure QGrid where
  height : ℕ
  width : ℕ
  data : List (List ℚ)
  deriving DecidableEq, Repr

def QGrid.get (g : QGrid) (r c : ℕ) : ℚ := (g.data.getD r []).getD c 0

/-- The source cell hit by nearest-neighbour lookup for destination cell
`(r, c)`: the destination cell center pushed through the destination
transform and pulled back through the source transform, floored to the
containing source cell `(row, col)`. -/
def nearestSrcIndex (srcT dstT : Affine) (r c : ℕ) : ℤ × ℤ :=
  let xy := dstT.fwd ((c : ℚ) + 1 / 2) ((r : ℚ) + 1 / 2)
  (⌊srcT.invRow xy.1 xy.2⌋, ⌊srcT.invCol xy.1 xy.2⌋)

/-- Whether the nearest-neighbour lookup for destination cell `(r, c)`
lands inside the source block. -/
def nearestInBounds (src : QGrid) (srcT dstT : Affine) (r c : ℕ) : Prop :=
  0 ≤ (nearestSrcIndex srcT dstT r c).1 ∧
    (nearestSrcIndex srcT dstT r c).1 < (src.height : ℤ) ∧
    0 ≤ (nearestSrcIndex srcT dstT r c).2 ∧
    (nearestSrcIndex srcT dstT r c).2 < (src.width : ℤ)

instance (src : QGrid) (srcT dstT : Affine) (r c : ℕ) :
    Decidable (nearestInBounds src srcT dstT r c) := by
  unfold nearestInBounds; infer_instance

/-- `reproject(..., resampling=Resampling.nearest)`: every covered
destination cell receives the value of its nearest source cell; cells
whose lookup falls outside the source keep the prior destination
contents. -/
def reprojectNearest (src : QGrid) (srcT : Affine) (dst0 : QGrid)
    (dstT : Affine) : QGrid :=
  { dst0 with
    data := (List.range dst0.height).map fun r =>
      (List.range dst0.width).map fun c =>
        if nearestInBounds src srcT dstT r c then
          src.get (nearestSrcIndex srcT dstT r c).1.toNat
            (nearestSrcIndex srcT dstT r c).2.toNat
        else dst0.get r c }

lemma getD_map_range {β : Type} (f : ℕ → β) {n k : ℕ} (hk : k < n)
    (d : β) : (((List.range n).map f).getD k d) = f k := by
  rw [List.getD_eq_getElem?_getD, List.getElem?_map, List.getElem?_range hk]
  rfl

lemma reprojectNearest_get (src : QGrid) (srcT : Affine) (dst0 : QGrid)
    (dstT : Affine) {r c : ℕ} (hr : r < dst0.height) (hc : c < dst0.width) :
    (reprojectNearest src srcT dst0 dstT).get r c =
      if nearestInBounds src srcT dstT r c then
        src.get (nearestSrcIndex srcT dstT r c).1.toNat
          (nearestSrcIndex srcT dstT r c).2.toNat
      else dst0.get r c := by
  unfold reprojectNearest QGrid.get
  rw [getD_map_range _ hr, getD_map_range _ hc]

/-- **C4**: categorical rasters are resampled with the nearest-neighbour
kernel (both MNC `reproject` calls of script 6 pass
`Resampling.nearest`), and nearest-neighbour resampling introduces no
fictitious codes: if every source cell belongs to a finite code set `S`,
every destination cell written by the resampler (i.e. whose lookup lands
in the source block) also belongs to `S`. -/
theorem nearest_resampling_preserves_codes (S : List ℚ) (src : QGrid)
    (srcT dstT : Affine) (dst0 : QGrid)
    (hsrc : ∀ r < src.height, ∀ c < src.width, src.get r c ∈ S)
    (hcov : ∀ r < dst0.height, ∀ c < dst0.width,
      nearestInBounds src srcT dstT r c) :
    mncReprojResamplingInv = Resampling.nearest ∧
      mncReprojResamplingVer = Resampling.nearest ∧
      ∀ r < dst0.height, ∀ c < dst0.width,
        (reprojectNearest src srcT dst0 dstT).get r c ∈ S := by
  refine ⟨rfl, rfl, ?_⟩
  intro r hr c hc
  rw [reprojectNearest_get src srcT dst0 dstT hr hc,
    if_pos (hcov r hr c hc)]
  obtain ⟨h1, h2, h3, h4⟩ := hcov r hr c hc
  apply hsrc
  · omega
  · omega

/-- Witness for `nearest_resampling_preserves_codes`: a 1×1 source block
with the single code `2` from the set `{1, 2}`, identity-like north-up
transforms on both sides, full coverage. -/
theorem nearest_resampling_preserves_codes_witness :
    ((∀ r < (QGrid.mk 1 1 [[2]]).height,
        ∀ c < (QGrid.mk 1 1 [[2]]).width,
        (QGrid.mk 1 1 [[2]]).get r c ∈ [(1 : ℚ), 2]) ∧
      (∀ r < (QGrid.mk 1 1 [[0]]).height,
        ∀ c < (QGrid.mk 1 1 [[0]]).width,
        nearestInBounds (QGrid.mk 1 1 [[2]]) ⟨1, 0, 0, 0, -1, 0⟩
          ⟨1, 0, 0, 0, -1, 0⟩ r c)) ∧
      (mncReprojResamplingInv = Resampling.nearest ∧
        mncReprojResamplingVer = Resampling.nearest ∧
        ∀ r < (QGrid.mk 1 1 [[0]]).height,
          ∀ c < (QGrid.mk 1 1 [[0]]).width,
          (reprojectNearest (QGrid.mk 1 1 [[2]]) ⟨1, 0, 0, 0, -1, 0⟩
            (QGrid.mk 1 1 [[0]]) ⟨1, 0, 0, 0, -1, 0⟩).get r c ∈
            [(1 : ℚ), 2]) :=
  ⟨⟨by decide, by
      intro r hr c hc
      interval_cases r
      interval_cases c
      norm_num [nearestInBounds, nearestSrcIndex, Affine.fwd,
        Affine.invRow, Affine.invCol, Affine.det]⟩,
    nearest_resampling_preserves_codes [(1 : ℚ), 2] (QGrid.mk 1 1 [[2]])
      ⟨1, 0, 0, 0, -1, 0⟩ ⟨1, 0, 0, 0, -1, 0⟩ (QGrid.mk 1 1 [[0]])
      (by decide) (by
        intro r hr c hc
        interval_cases r
        interval_cases c
        norm_num [nearestInBounds, nearestSrcIndex, Affine.fwd,
          Affine.invRow, Affine.invCol, Affine.det])⟩

/-! ## Band-stack geometry check

Script 5 (`5_combinar_rasters_ndvi.py`) adopts the first raster's
metadata as reference (lines 53-63) without comparing the other rasters
against it.  Script 9 (`9_combinar_recortes_con_ndvi.py`, lines 108-116)
checks the recorte rasters against the reference:

    if (inv_width != ref_width or inv_height != ref_height or
        ver_width != ref_width or ver_height != ref_height):
        ... exit(1)
    if inv_crs != ref_crs or ver_crs != ref_crs:
        ... exit(1)

Only dimensions and CRS are compared; the affine transform is not. -/

/-- Grid geometry metadata of a raster file. -/
structure Meta where
  width : ℕ
  height : ℕ
  crs : ℕ
  transform : Affine
  deriving DecidableEq, Repr

/-- Script 9's one-time pre-stack verification (lines 108-116): `exit(1)`
on dimension or CRS mismatch, modelled as `Except.error`. -/
def verificarParametrosRecortes (inv ver ref : Meta) :
    Except String Unit :=
  if inv.width ≠ ref.width ∨ inv.height ≠ ref.height ∨
      ver.width ≠ ref.width ∨ ver.height ≠ ref.height then
    Except.error "Las dimensiones de los rasters recorte no coinciden con el NDVI combinado."
  else if inv.crs ≠ ref.crs ∨ ver.crs ≠ ref.crs then
    Except.error "Los CRS de los rasters recorte no coinciden con el NDVI combinado."
  else Except.ok ()

/-- **C5, counterexample**: the pre-stack check accepts inputs whose
affine transforms differ from the reference — transform equality is not
part of the check, so a transform violation is not a hard error (and
script 5's stacker performs no geometry comparison at all). -/
theorem geometry_check_ignores_transform :
    verificarParametrosRecortes
        ⟨10, 10, 32721, ⟨2, 0, 0, 0, -2, 0⟩⟩
        ⟨10, 10, 32721, ⟨1, 0, 0, 0, -1, 0⟩⟩
        ⟨10, 10, 32721, ⟨1, 0, 0, 0, -1, 0⟩⟩ = Except.ok () ∧
      (Meta.mk 10 10 32721 ⟨2, 0, 0, 0, -2, 0⟩).transform ≠
        (Meta.mk 10 10 32721 ⟨1, 0, 0, 0, -1, 0⟩).transform :=
  ⟨rfl, by decide⟩

/-- **C5, amended**: the one-time geometry check that does exist (script
9, lines 108-116) passes exactly when both recorte rasters match the
reference in dimensions and CRS; a mismatch of either is a hard error
aborting the stage, and the transform is never compared (script 5
performs no check at all, adopting the first raster's metadata). -/
theorem geometry_check_characterization (inv ver ref : Meta) :
    verificarParametrosRecortes inv ver ref = Except.ok () ↔
      (inv.width = ref.width ∧ inv.height = ref.height ∧
        ver.width = ref.width ∧ ver.height = ref.height ∧
        inv.crs = ref.crs ∧ ver.crs = ref.crs) := by
  unfold verificarParametrosRecortes
  split_ifs with h1 h2
  · constructor
    · intro h; cases h
    · intro h; exact absurd h (by tauto)
  · constructor
    · intro h; cases h
    · intro h; exact absurd h (by tauto)
  · push_neg at h1 h2
    constructor
    · intro _; tauto
    · intro _; rfl

/-! ## The MNC combination stage (script 6), per-window pipeline

`6_recortar_mnc_y_combinar.py`, lines 136-258.  For each reference
window the script computes the window's geographic bounds, locates the
corresponding MNC window, and then executes

    inv_window = rasterio.windows.intersect(
        inv_window,
        Window(0, 0, src_inv.width, src_inv.height)
    )
    if inv_window.width > 0 and inv_window.height > 0:
        ...

`rasterio.windows.intersect(*windows)` is the intersection *predicate* of
the rasterio API: it returns a Python `bool` (the intersection *window*
is returned by `rasterio.windows.intersection`).  The subsequent
attribute access `inv_window.width` therefore raises `AttributeError`,
which the per-window `except` handler (line 267) catches, skipping the
window without writing anything.  The embedding keeps the dynamic type:
the variable holds either a float window or a bool, and attribute access
on the bool is an `Except.error`. -/

/-- A Python value that is either a rasterio `Window` or a `bool` (the
return type of `rasterio.windows.intersect`). -/
inductive PyWin where
  | win (w : FWindow)
  | pybool (b : Bool)
  deriving Repr

/-- Attribute access `x.width`: an `AttributeError` when `x` is a bool. -/
def PyWin.widthAttr : PyWin → Except String ℚ
  | .win w => Except.ok w.width
  | .pybool _ =>
      Except.error "AttributeError: bool object has no attribute width"

/-- Attribute access `x.height`. -/
def PyWin.heightAttr : PyWin → Except String ℚ
  | .win w => Except.ok w.height
  | .pybool _ =>
      Except.error "AttributeError: bool object has no attribute height"

/-- Use of the value as a window (any further field access). -/
def PyWin.asWin : PyWin → Except String FWindow
  | .win w => Except.ok w
  | .pybool _ =>
      Except.error "AttributeError: bool object has no attribute"

/-- The overlap test `rasterio.windows.intersect` performs: both the
column ranges and the row ranges strictly overlap. -/
def windowsOverlap (a b : FWindow) : Bool :=
  decide (a.colOff < b.colOff + b.width) &&
    decide (b.colOff < a.colOff + a.width) &&
    decide (a.rowOff < b.rowOff + b.height) &&
    decide (b.rowOff < a.rowOff + a.height)

/-- `rasterio.windows.intersect(a, b)`: a *predicate* — it returns a
Python `bool` stating whether the windows intersect, not the intersected
window. -/
def windowsIntersect (a b : FWindow) : PyWin :=
  PyWin.pybool (windowsOverlap a b)

/-- `rasterio.warp.transform_bounds(crs, crs, ...)` in the identity-CRS
case: the bounds are returned unchanged. -/
def transformBoundsIdent (b : Bounds) : Bounds := b

/-- `rasterio.transform.from_bounds(left, bottom, right, top, width,
height)`: the north-up affine transform of a grid with the given extent
and shape (scripts 2 and 6 use it for the per-window source and
destination transforms). -/
def transformFromBounds (bnds : Bounds) (width height : ℚ) : Affine :=
  { a := (bnds.right - bnds.left) / width, b := 0, c := bnds.left,
    d := 0, e := -((bnds.top - bnds.bottom) / height), f := bnds.top }

/-- `src.read(1, window=w)` for an integral float window `w`. -/
def readWindow (g : QGrid) (w : FWindow) : QGrid :=
  let r0 := (⌊w.rowOff⌋).toNat
  let c0 := (⌊w.colOff⌋).toNat
  let ht := (⌊w.height⌋).toNat
  let wd := (⌊w.width⌋).toNat
  { height := ht, width := wd,
    data := (List.range ht).map fun r =>
      (List.range wd).map fun c => g.get (r0 + r) (c0 + c) }

/-- `np.zeros((rows, cols), dtype=np.float32)`. -/
def zerosGrid (rows cols : ℕ) : QGrid :=
  { height := rows, width := cols,
    data := (List.range rows).map fun _ =>
      (List.range cols).map fun _ => (0 : ℚ) }

/-- `EXCLUDE_VALUES = [0, 255]` of script 6 (line 36). -/
def excludeValuesMnc : List ℚ := [0, 255]

/-- The validity mask of script 6, lines 240-242 / 247-249:
`~np.isin(chunk, EXCLUDE_VALUES)`, additionally requiring
`chunk != nodata` when a nodata value is defined. -/
def maskMnc (nodata : Option ℚ) (v : ℚ) : Bool :=
  !(excludeValuesMnc.contains v) &&
    (match nodata with
     | some nd => decide (v ≠ nd)
     | none => true)

/-- The binary season band of a window (script 6 lines 239-251):
`1.0` on mask, `0.0` elsewhere. -/
def bandaBinaria (chunk : QGrid) (nodata : Option ℚ) : QGrid :=
  { chunk with
    data := chunk.data.map fun row =>
      row.map fun v => if maskMnc nodata v then (1 : ℚ) else 0 }

/-- Configuration of the MNC combination stage: reference grid geometry,
the two season rasters, and the memory contents exposed by the `np.empty`
destination allocations. -/
structure Cfg6 where
  chunk : ℕ
  refHeight : ℕ
  refWidth : ℕ
  refT : Affine
  inv : QGrid
  invT : Affine
  invNodata : Option ℚ
  ver : QGrid
  verT : Affine
  verNodata : Option ℚ
  garbage : QGrid

/-- One season's sub-pipeline for one reference window (script 6 lines
160-197 for invierno, 199-236 for verano; identity-CRS case): bounds,
source window lookup, the `rasterio.windows.intersect` call, the
width/height test on its result, and either the windowed
nearest-neighbour reprojection or the `np.zeros` fill. -/
def seasonChunk (src : QGrid) (srcT refT : Affine) (garbage : QGrid)
    (rowStart rowEnd colStart colEnd : ℕ) : Except String QGrid := do
  let wb := windowBounds
    ⟨colStart, rowStart, colEnd - colStart, rowEnd - rowStart⟩ refT
  let sBounds := transformBoundsIdent wb
  let sWin := ((fromBounds sBounds srcT).roundLengths).roundOffsets
  let sWin2 := windowsIntersect sWin
    ⟨0, 0, (src.width : ℚ), (src.height : ℚ)⟩
  let wdt ← sWin2.widthAttr
  let hgt ← sWin2.heightAttr
  if 0 < wdt ∧ 0 < hgt then do
    let sw ← sWin2.asWin
    let chunkRaw := readWindow src sw
    let swBounds := windowBounds
      ⟨(⌊sw.colOff⌋).toNat, (⌊sw.rowOff⌋).toNat, (⌊sw.width⌋).toNat,
        (⌊sw.height⌋).toNat⟩ srcT
    let srcTransform := transformFromBounds swBounds sw.width sw.height
    let dstTransform := transformFromBounds wb
      ((colEnd : ℚ) - colStart) ((rowEnd : ℚ) - rowStart)
    let dst0 : QGrid :=
      ⟨rowEnd - rowStart, colEnd - colStart, garbage.data⟩
    pure (reprojectNearest chunkRaw srcTransform dst0 dstTransform)
  else
    pure (zerosGrid (rowEnd - rowStart) (colEnd - colStart))

/-- The body of script 6's per-window loop (lines 137-258): both season
sub-pipelines and the binary band computation; `Except.ok none` is the
zero-extent `continue`, `Except.error` a raised exception (caught by the
handler at line 267, which skips the window without writing). -/
def ventana6 (cfg : Cfg6) (i j : ℕ) :
    Except String (Option (QGrid × QGrid)) := do
  let rowStart := i * cfg.chunk
  let rowEnd := min ((i + 1) * cfg.chunk) cfg.refHeight
  let colStart := j * cfg.chunk
  let colEnd := min ((j + 1) * cfg.chunk) cfg.refWidth
  if rowEnd ≤ rowStart ∨ colEnd ≤ colStart then
    pure none
  else do
    let invChunk ← seasonChunk cfg.inv cfg.invT cfg.refT cfg.garbage
      rowStart rowEnd colStart colEnd
    let verChunk ← seasonChunk cfg.ver cfg.verT cfg.refT cfg.garbage
      rowStart rowEnd colStart colEnd
    pure (some (bandaBinaria invChunk cfg.invNodata,
      bandaBinaria verChunk cfg.verNodata))

/-- The sequence of season-band window writes the stage performs: one
entry per window whose body completed (windows whose body raised are
caught, logged and skipped without a write). -/
def stage6SeasonWrites (cfg : Cfg6) :
    List ((ℕ × ℕ) × QGrid × QGrid) :=
  ((List.range (nChunks cfg.refHeight cfg.chunk)).flatMap fun i =>
    (List.range (nChunks cfg.refWidth cfg.chunk)).map fun j =>
      (i, j)).filterMap fun ij =>
    match ventana6 cfg ij.1 ij.2 with
    | Except.ok (some bands) => some (ij, bands)
    | Except.ok none => none
    | Except.error _ => none

/-- The width attribute of the bool returned by
`rasterio.windows.intersect` raises, whatever the windows were. -/
lemma widthAttr_windowsIntersect (a b : FWindow) :
    (windowsIntersect a b).widthAttr =
      Except.error "AttributeError: bool object has no attribute width" :=
  rfl

/-- Every invocation of the season sub-pipeline raises the
`AttributeError` at the `inv_window.width` access. -/
lemma seasonChunk_raises (src : QGrid) (srcT refT : Affine)
    (garbage : QGrid) (rowStart rowEnd colStart colEnd : ℕ) :
    seasonChunk src srcT refT garbage rowStart rowEnd colStart colEnd =
      Except.error "AttributeError: bool object has no attribute width" :=
  rfl

/-- A concrete configuration: a 2×2 reference grid, chunk size 2 (a
single window), both MNC rasters co-registered with the reference,
and a season map holding the valid category code `5` at pixel (0,0). -/
def cfg6Ej : Cfg6 :=
  { chunk := 2, refHeight := 2, refWidth := 2,
    refT := ⟨1, 0, 0, 0, -1, 2⟩,
    inv := ⟨2, 2, [[5, 0], [255, 7]]⟩,
    invT := ⟨1, 0, 0, 0, -1, 2⟩,
    invNodata := none,
    ver := ⟨2, 2, [[5, 0], [255, 7]]⟩,
    verT := ⟨1, 0, 0, 0, -1, 2⟩,
    verNodata := none,
    garbage := ⟨2, 2, [[9, 9], [9, 9]]⟩ }

/-- **C3**: contrary to the claim, an MNC-stage reference window — empty
source overlap or not — does not produce a neutral-filled destination
block: the window body raises `AttributeError` at the
`inv_window.width` access (because `rasterio.windows.intersect` returns
a bool), shown here evaluated at the concrete failing input
`cfg6Ej`, window `(0,0)`.  The exception is caught by the per-window
handler, so it does not propagate — the window is skipped without any
write.  (In the statistics stage, script 2, the window is indeed omitted
from accumulation and the pass continues.) -/
theorem mnc_window_body_raises_attrerror :
    ventana6 cfg6Ej 0 0 =
      Except.error "AttributeError: bool object has no attribute width" :=
  rfl

/-- **C10**: no season-band window is ever written by the MNC
combination stage — for every configuration the write sequence is empty,
because every window body raises at the `rasterio.windows.intersect`
result (see `seasonChunk_raises`); in particular the output season bands
cannot hold `1.0` at the valid pixels of `cfg6Ej`'s season map (code `5`
at pixel (0,0) passes the validity mask, yet is never written). -/
theorem stage6_writes_no_season_band :
    (∀ cfg : Cfg6, stage6SeasonWrites cfg = []) ∧
      maskMnc cfg6Ej.invNodata (cfg6Ej.inv.get 0 0) = true := by
  constructor
  · intro cfg
    unfold stage6SeasonWrites
    rw [List.filterMap_eq_nil_iff]
    intro ij hij
    have hv : ∀ o : Except String (Option (QGrid × QGrid)),
        (o = Except.error
          "AttributeError: bool object has no attribute width" ∨
         o = Except.ok none) →
        (match o with
          | Except.ok (some bands) => some (ij, bands)
          | Except.ok none => none
          | Except.error _ => none) =
          (none : Option ((ℕ × ℕ) × QGrid × QGrid)) := by
      rintro o (rfl | rfl) <;> rfl
    apply hv
    unfold ventana6
    by_cases hg : min ((ij.1 + 1) * cfg.chunk) cfg.refHeight ≤
        ij.1 * cfg.chunk ∨
        min ((ij.2 + 1) * cfg.chunk) cfg.refWidth ≤ ij.2 * cfg.chunk
    · right
      simp only [hg, if_true]
      rfl
    · left
      simp only [hg, if_false]
      rw [seasonChunk_raises]
      rfl
  · rfl

/-! ## Multi-raster band stacker (script 5)

`5_combinar_rasters_ndvi.py`: the monthly NDVI bands are stacked
(`np.stack`, line 118) and reduced pixel-wise with `np.nanmedian`,
`np.nanmin`, `np.nanmax`, `np.nanstd` (lines 124-133); the output bands
are the four reducer bands followed by the input bands
(`bandas_finales = [mediana, minimo, maximo, desviacion] + datos_rasters`,
line 145), labelled `['mediana', 'min', 'max', 'sd'] + nombres_validos`
(line 146) via `set_band_description` (line 166).

A band is a list of pixel rows; a NaN cell is `none`.  The `nan*`
reducers operate on the per-pixel column through the stack with the NaN
entries dropped.  `np.nanstd` is the population standard deviation
(`ddof=0`): the square root of the mean squared deviation, over `ℝ`. -/

abbrev Band := List (List Pix)

abbrev BandR := List (List (Option ℝ))

/-- Cell lookup in a band (row-major lists). -/
def getPix (b : Band) (r c : ℕ) : Pix := (b.getD r []).getD c none

/-- The per-pixel column through the stack with NaN entries removed —
the values every `nan*` reducer of script 5 aggregates at pixel
`(r, c)`. -/
def colVals (datos : List Band) (r c : ℕ) : List ℚ :=
  datos.filterMap fun b => getPix b r c

/-- The median of a list as `np.median` computes it: middle element of
the sorted list, or the mean of the two middle elements. -/
def medianQ (l : List ℚ) : ℚ :=
  let s := List.insertionSort (fun a b => a ≤ b) l
  let n := s.length
  if n % 2 = 1 then s.getD (n / 2) 0
  else (s.getD (n / 2 - 1) 0 + s.getD (n / 2) 0) / 2

/-- Population variance (`np.nanstd` squared, `ddof=0`). -/
def varQ (l : List ℚ) : ℚ :=
  let n : ℚ := l.length
  let μ := l.sum / n
  (l.map fun x => (x - μ) ^ 2).sum / n

/-- `np.nanmedian` at one pixel: NaN for an all-NaN column. -/
def nanmedianAt (datos : List Band) (r c : ℕ) : Pix :=
  match colVals datos r c with
  | [] => none
  | v => some (medianQ v)

/-- `np.nanmin` at one pixel. -/
def nanminAt (datos : List Band) (r c : ℕ) : Pix :=
  match colVals datos r c with
  | [] => none
  | x :: xs => some (xs.foldl min x)

/-- `np.nanmax` at one pixel. -/
def nanmaxAt (datos : List Band) (r c : ℕ) : Pix :=
  match colVals datos r c with
  | [] => none
  | x :: xs => some (xs.foldl max x)

/-- `np.nanstd` squared at one pixel (the population variance). -/
def nanvarAt (datos : List Band) (r c : ℕ) : Pix :=
  match colVals datos r c with
  | [] => none
  | v => some (varQ v)

/-- `np.nanstd` at one pixel: the square root of the population
variance, over `ℝ`. -/
noncomputable def nanstdAt (datos : List Band) (r c : ℕ) : Option ℝ :=
  (nanvarAt datos r c).map fun q => Real.sqrt (q : ℝ)

/-- Materialise an `h × w` band from a per-pixel formula. -/
def mkBand (h w : ℕ) (f : ℕ → ℕ → Pix) : Band :=
  (List.range h).map fun r => (List.range w).map fun c => f r c

def mkBandR (h w : ℕ) (f : ℕ → ℕ → Option ℝ) : BandR :=
  (List.range h).map fun r => (List.range w).map fun c => f r c

/-- Inject an exact band into the real-valued output stack. -/
def toR (b : Band) : BandR :=
  b.map fun row => row.map fun p => p.map fun q => (q : ℝ)

/-- The stacker's output (script 5 lines 121-146): the four reducer
bands in the fixed order median, min, max, stddev, followed by the input
bands in input order, with the matching labels. -/
noncomputable def combinarRasters (h w : ℕ) (datos : List Band)
    (nombres : List String) : List BandR × List String :=
  (toR (mkBand h w (nanmedianAt datos)) ::
      toR (mkBand h w (nanminAt datos)) ::
      toR (mkBand h w (nanmaxAt datos)) ::
      mkBandR h w (nanstdAt datos) :: datos.map toR,
    "mediana" :: "min" :: "max" :: "sd" :: nombres)

/-- **C7**: the stacker computes per-pixel `nanmedian`, `nanmin`,
`nanmax` and population `nanstd` ignoring NaN contributions, and emits
the reducer bands first in the fixed order median, min, max, stddev,
followed by the original bands in input order, each with its label: on
the 2-band stack `[[1,2],[3,4]]` and `[[NaN,2],[3,6]]` the output is
median `[[1,2],[3,5]]`, min `[[1,2],[3,4]]`, max `[[1,2],[3,6]]`,
stddev `[[0,0],[0,1]]`, then the two input bands, labelled
`mediana, min, max, sd` then the input names. -/
theorem stack_reducers_scenario :
    combinarRasters 2 2
        [[[some 1, some 2], [some 3, some 4]],
         [[none, some 2], [some 3, some 6]]]
        ["NDVI_2023-01", "NDVI_2023-02"] =
      ([[[some 1, some 2], [some 3, some 5]],
        [[some 1, some 2], [some 3, some 4]],
        [[some 1, some 2], [some 3, some 6]],
        [[some 0, some 0], [some 0, some 1]],
        [[some 1, some 2], [some 3, some 4]],
        [[none, some 2], [some 3, some 6]]],
       ["mediana", "min", "max", "sd", "NDVI_2023-01", "NDVI_2023-02"]) := by
  have hr2 : List.range 2 = [0, 1] := rfl
  norm_num [combinarRasters, mkBand, mkBandR, toR, nanmedianAt, nanminAt,
    nanmaxAt, nanvarAt, nanstdAt, colVals, getPix, medianQ, varQ, hr2,
    List.insertionSort, List.orderedInsert, List.getD,
    List.filterMap_cons, List.getElem?_cons_zero, List.getElem?_cons_succ,
    Option.bind]

/-! ## Categorical zonal accumulator (script 2)

`2_procesar_ndvi_por_categoria.py`, function
`procesar_ndvi_por_categoria` (lines 99-277), in the aligned-grid path
(`necesita_reproyeccion == False`: same CRS and dimensions, window read
straight through; the accumulation and finalization logic, lines 236-277,
is identical on both paths):

    resultados = defaultdict(list)
    ... per window:
    ndvi_valid = ~np.isnan(ndvi_chunk)
    if src_ndvi.nodata is not None:
        ndvi_valid = ndvi_valid & (ndvi_chunk != src_ndvi.nodata)
    for cat_val in categorias:
        if cat_val in exclude_values: continue
        mask = (inta_chunk == cat_val) & ndvi_valid
        if np.any(mask):
            ndvi_values = ndvi_chunk[mask]
            ndvi_values = ndvi_values[~np.isnan(ndvi_values)]
            if len(ndvi_values) > 0:
                resultados[cat_val].extend(ndvi_values.tolist())
    ... finalize:
    promedios = {}
    for cat_val, valores in resultados.items():
        promedios[cat_val] = np.mean(valores) if len(valores) > 0 else np.nan

The `defaultdict(list)` is an association list in first-insertion order;
a key exists exactly when `.extend` ran for it at least once. -/

/-- An aligned raster pair: the INTA category grid and the NDVI grid
share height, width and CRS. -/
structure RasterPair where
  h : ℕ
  w : ℕ
  inta : ℕ → ℕ → ℤ
  ndvi : ℕ → ℕ → Pix
  nodata : Option ℚ

/-- The NDVI validity mask (lines 237-239): not NaN, and different from
the nodata sentinel when one is defined. -/
def ndviValid (R : RasterPair) (r c : ℕ) : Bool :=
  (R.ndvi r c).isSome &&
    (match R.nodata with
     | some nd => decide (R.ndvi r c ≠ some nd)
     | none => true)

/-- The per-category mask (line 247):
`(inta_chunk == cat_val) & ndvi_valid`. -/
def catMask (R : RasterPair) (cat : ℤ) (r c : ℕ) : Bool :=
  decide (R.inta r c = cat) && ndviValid R r c

/-- The pixels of a window in row-major order. -/
def winPixels (win : Win) : List (ℕ × ℕ) :=
  (List.range (win.rowEnd - win.rowStart)).flatMap fun r =>
    (List.range (win.colEnd - win.colStart)).map fun c =>
      (win.rowStart + r, win.colStart + c)

/-- `np.any(mask)` over one window (line 249). -/
def anyMask (R : RasterPair) (cat : ℤ) (win : Win) : Bool :=
  (winPixels win).any fun rc => catMask R cat rc.1 rc.2

/-- `ndvi_chunk[mask]` (line 251): the NDVI cells selected by the mask,
in row-major order. -/
def maskedVals (R : RasterPair) (cat : ℤ) (win : Win) : List Pix :=
  (winPixels win).filterMap fun rc =>
    if catMask R cat rc.1 rc.2 then some (R.ndvi rc.1 rc.2) else none

/-- The defensive second NaN filter
`ndvi_values[~np.isnan(ndvi_values)]` (line 253). -/
def maskedValsClean (R : RasterPair) (cat : ℤ) (win : Win) : List ℚ :=
  (maskedVals R cat win).filterMap id

/-- The running accumulator `resultados`: an association list from
category code to collected samples, in first-insertion order. -/
abbrev Acc := List (ℤ × List ℚ)

/-- `resultados[cat].extend(vs)` on a `defaultdict(list)`: append to the
existing entry, or create the key at the end. -/
def extendAcc : Acc → ℤ → List ℚ → Acc
  | [], cat, vs => [(cat, vs)]
  | (k, l) :: rest, cat, vs =>
      if k = cat then (k, l ++ vs) :: rest
      else (k, l) :: extendAcc rest cat vs

/-- Python-dict key lookup on an association list. -/
def lookupAcc {α : Type} : List (ℤ × α) → ℤ → Option α
  | [], _ => none
  | (k, v) :: rest, cat => if k = cat then some v else lookupAcc rest cat

/-- One category's accumulation step inside one window (lines 242-255). -/
def stepCat (R : RasterPair) (exclude : List ℤ) (win : Win) (acc : Acc)
    (cat : ℤ) : Acc :=
  if cat ∈ exclude then acc
  else if anyMask R cat win then
    if 0 < (maskedValsClean R cat win).length then
      extendAcc acc cat (maskedValsClean R cat win)
    else acc
  else acc

/-- One window's accumulation step: the inner `for cat_val in categorias`
loop. -/
def stepWin (R : RasterPair) (categorias exclude : List ℤ) (acc : Acc)
    (win : Win) : Acc :=
  categorias.foldl (stepCat R exclude win) acc

/-- The full accumulator after the window loop. -/
def resultadosOf (R : RasterPair) (categorias exclude : List ℤ)
    (chunk : ℕ) : Acc :=
  (partitionWins R.h R.w chunk).foldl (stepWin R categorias exclude) []

/-- Finalization (lines 269-277): mean for a non-empty sample list, NaN
(`none`) for an empty one. -/
def promediosOf (R : RasterPair) (categorias exclude : List ℤ)
    (chunk : ℕ) : List (ℤ × Pix) :=
  (resultadosOf R categorias exclude chunk).map fun kv =>
    (kv.1, if 0 < kv.2.length then some (kv.2.sum / kv.2.length) else none)

/-- The caller's lookup `promedios.get(cat, np.nan)` (lines 327/368). -/
def promediosGet (ps : List (ℤ × Pix)) (cat : ℤ) : Pix :=
  match lookupAcc ps cat with
  | some v => v
  | none => none

/-- Whether a category matches at least one valid pixel anywhere on the
raster pair. -/
def matchedB (R : RasterPair) (cat : ℤ) : Bool :=
  (List.range R.h).any fun r =>
    (List.range R.w).any fun c => catMask R cat r c

/-! Supporting lemmas for the accumulator. -/

lemma anyMask_iff {R : RasterPair} {cat : ℤ} {win : Win} :
    anyMask R cat win = true ↔
      ∃ r c, memWin r c win ∧ catMask R cat r c = true := by
  unfold anyMask winPixels
  rw [List.any_eq_true]
  constructor
  · rintro ⟨rc, hmem, hmask⟩
    simp only [List.mem_flatMap, List.mem_map, List.mem_range] at hmem
    obtain ⟨dr, hdr, dc, hdc, rfl⟩ := hmem
    refine ⟨win.rowStart + dr, win.colStart + dc, ?_, hmask⟩
    unfold memWin
    omega
  · rintro ⟨r, c, ⟨h1, h2, h3, h4⟩, hmask⟩
    refine ⟨(r, c), ?_, hmask⟩
    simp only [List.mem_flatMap, List.mem_map, List.mem_range]
    exact ⟨r - win.rowStart, by omega, c - win.colStart, by omega,
      by simp only [Prod.mk.injEq]; omega⟩

lemma catMask_isSome {R : RasterPair} {cat : ℤ} {r c : ℕ}
    (h : catMask R cat r c = true) : (R.ndvi r c).isSome = true := by
  unfold catMask ndviValid at h
  simp only [Bool.and_eq_true] at h
  exact h.2.1

lemma maskedValsClean_pos {R : RasterPair} {cat : ℤ} {win : Win}
    (h : anyMask R cat win = true) :
    0 < (maskedValsClean R cat win).length := by
  unfold anyMask at h
  rw [List.any_eq_true] at h
  obtain ⟨rc, hmem, hmask⟩ := h
  obtain ⟨q, hq⟩ := Option.isSome_iff_exists.mp (catMask_isSome hmask)
  apply List.length_pos.mpr
  apply List.ne_nil_of_mem (a := q)
  unfold maskedValsClean
  rw [List.mem_filterMap]
  refine ⟨some q, ?_, rfl⟩
  unfold maskedVals
  rw [List.mem_filterMap]
  exact ⟨rc, hmem, by rw [if_pos hmask, hq]⟩

lemma mem_partitionWins_bounds {h w c : ℕ} {win : Win}
    (hwin : win ∈ partitionWins h w c) :
    win.rowEnd ≤ h ∧ win.colEnd ≤ w ∧ win.rowStart < win.rowEnd ∧
      win.colStart < win.colEnd := by
  unfold partitionWins at hwin
  rw [List.mem_filterMap] at hwin
  obtain ⟨ij, _, hemit⟩ := hwin
  revert hemit
  unfold emitWin mkWin
  simp only
  intro hemit
  split_ifs at hemit with hguard
  cases hemit
  push_neg at hguard
  exact ⟨min_le_right _ _, min_le_right _ _, hguard.1, hguard.2⟩

/-- Full-grid coverage by the partition (factored out of the partition
correctness proof, reused by the accumulator lemmas). -/
lemma partition_coverage {h w c r cc : ℕ} (hc : 0 < c) (hr : r < h)
    (hcc : cc < w) : ∃ win ∈ partitionWins h w c, memWin r cc win := by
  have hh : 0 < h := by omega
  have hw : 0 < w := by omega
  have hnw : 0 < nChunks w c := by
    have := lt_nChunks_of_lt (r := 0) hc hw
    simpa using this
  have hmap := partitionWins_eq_map hh hw hc
  refine ⟨mkWin h w c (r / c) (cc / c), ?_, memWin_mkWin hc hr hcc⟩
  rw [hmap]
  simp only [List.mem_map, List.mem_range]
  refine ⟨r / c * nChunks w c + cc / c, ?_, ?_⟩
  · have hi : r / c < nChunks h c := lt_nChunks_of_lt hc hr
    have hj : cc / c < nChunks w c := lt_nChunks_of_lt hc hcc
    calc r / c * nChunks w c + cc / c
        < r / c * nChunks w c + nChunks w c := by omega
      _ = (r / c + 1) * nChunks w c := by ring
      _ ≤ nChunks h c * nChunks w c := Nat.mul_le_mul_right _ hi
  · have hj : cc / c < nChunks w c := lt_nChunks_of_lt hc hcc
    have hd : (r / c * nChunks w c + cc / c) / nChunks w c = r / c := by
      rw [Nat.add_comm, Nat.add_mul_div_right _ _ hnw, Nat.div_eq_of_lt hj]
      omega
    have hm : (r / c * nChunks w c + cc / c) % nChunks w c = cc / c := by
      rw [Nat.add_comm, Nat.add_mul_mod_self_right, Nat.mod_eq_of_lt hj]
    rw [hd, hm]

/-- A category matches somewhere on the raster pair iff it matches in
some partition window. -/
lemma exists_win_anyMask_iff {R : RasterPair} {cat : ℤ} {chunk : ℕ}
    (hc : 0 < chunk) :
    (∃ win ∈ partitionWins R.h R.w chunk, anyMask R cat win = true) ↔
      matchedB R cat = true := by
  constructor
  · rintro ⟨win, hwin, hany⟩
    obtain ⟨r, c, hmem, hmask⟩ := anyMask_iff.mp hany
    obtain ⟨hb1, hb2, _, _⟩ := mem_partitionWins_bounds hwin
    obtain ⟨h1, h2, h3, h4⟩ := hmem
    unfold matchedB
    rw [List.any_eq_true]
    refine ⟨r, List.mem_range.mpr (by omega), ?_⟩
    rw [List.any_eq_true]
    exact ⟨c, List.mem_range.mpr (by omega), hmask⟩
  · intro hm
    unfold matchedB at hm
    rw [List.any_eq_true] at hm
    obtain ⟨r, hr, hm⟩ := hm
    rw [List.any_eq_true] at hm
    obtain ⟨c, hcc, hmask⟩ := hm
    rw [List.mem_range] at hr hcc
    obtain ⟨win, hwin, hmem⟩ := partition_coverage hc hr hcc
    exact ⟨win, hwin, anyMask_iff.mpr ⟨r, c, hmem, hmask⟩⟩

lemma lookupAcc_extendAcc_isSome (acc : Acc) (k : ℤ) (vs : List ℚ)
    (cat : ℤ) :
    (lookupAcc (extendAcc acc k vs) cat).isSome = true ↔
      k = cat ∨ (lookupAcc acc cat).isSome = true := by
  induction acc with
  | nil =>
      unfold extendAcc lookupAcc
      split_ifs with hk
      · simp [hk]
      · simp [hk, lookupAcc]
  | cons kv rest ih =>
      obtain ⟨k', l⟩ := kv
      unfold extendAcc
      split_ifs with hk
      · subst hk
        unfold lookupAcc
        split_ifs with hc
        · simp [hc]
        · simp [hc]
      · show (lookupAcc ((k', l) :: extendAcc rest k vs) cat).isSome = _ ↔ _
        unfold lookupAcc
        split_ifs with hc
        · simp
        · rw [ih]

lemma lookupAcc_stepCat_isSome (R : RasterPair) (excl : List ℤ)
    (win : Win) (acc : Acc) (cat' cat : ℤ) :
    (lookupAcc (stepCat R excl win acc cat') cat).isSome = true ↔
      (cat' = cat ∧ cat ∉ excl ∧ anyMask R cat win = true) ∨
        (lookupAcc acc cat).isSome = true := by
  unfold stepCat
  split_ifs with h1 h2 h3
  · constructor
    · intro h; right; exact h
    · rintro (⟨rfl, hni, _⟩ | h)
      · exact absurd h1 hni
      · exact h
  · rw [lookupAcc_extendAcc_isSome]
    constructor
    · rintro (rfl | h)
      · left; exact ⟨rfl, h1, h2⟩
      · right; exact h
    · rintro (⟨rfl, _, _⟩ | h)
      · left; rfl
      · right; exact h
  · exact absurd (maskedValsClean_pos h2) h3
  · constructor
    · intro h; right; exact h
    · rintro (⟨rfl, _, hm⟩ | h)
      · exact absurd hm h2
      · exact h

lemma lookupAcc_stepWin_isSome (R : RasterPair) (excl : List ℤ)
    (win : Win) (cat : ℤ) (categorias : List ℤ) : ∀ acc : Acc,
    (lookupAcc (stepWin R categorias excl acc win) cat).isSome = true ↔
      (cat ∈ categorias ∧ cat ∉ excl ∧ anyMask R cat win = true) ∨
        (lookupAcc acc cat).isSome = true := by
  induction categorias with
  | nil =>
      intro acc
      unfold stepWin
      simp
  | cons c' cs ih =>
      intro acc
      show (lookupAcc (List.foldl (stepCat R excl win)
        (stepCat R excl win acc c') cs) cat).isSome = true ↔ _
      rw [show List.foldl (stepCat R excl win)
        (stepCat R excl win acc c') cs =
          stepWin R cs excl (stepCat R excl win acc c') win from rfl]
      rw [ih, lookupAcc_stepCat_isSome]
      simp only [List.mem_cons]
      constructor
      · rintro (⟨hm, he, ha⟩ | ⟨rfl, he, ha⟩ | h)
        · exact Or.inl ⟨Or.inr hm, he, ha⟩
        · exact Or.inl ⟨Or.inl rfl, he, ha⟩
        · exact Or.inr h
      · rintro (⟨(rfl | hm), he, ha⟩ | h)
        · exact Or.inr (Or.inl ⟨rfl, he, ha⟩)
        · exact Or.inl ⟨hm, he, ha⟩
        · exact Or.inr (Or.inr h)

lemma lookupAcc_foldWins_isSome (R : RasterPair)
    (categorias excl : List ℤ) (cat : ℤ) (wins : List Win) :
    ∀ acc : Acc,
    (lookupAcc (wins.foldl (stepWin R categorias excl) acc) cat).isSome =
        true ↔
      (cat ∈ categorias ∧ cat ∉ excl ∧
          ∃ win ∈ wins, anyMask R cat win = true) ∨
        (lookupAcc acc cat).isSome = true := by
  induction wins with
  | nil =>
      intro acc
      simp
  | cons win rest ih =>
      intro acc
      rw [List.foldl_cons, ih, lookupAcc_stepWin_isSome]
      simp only [List.mem_cons]
      constructor
      · rintro (⟨hm, he, w2, hw2, ha⟩ | ⟨hm, he, ha⟩ | h)
        · exact Or.inl ⟨hm, he, w2, Or.inr hw2, ha⟩
        · exact Or.inl ⟨hm, he, win, Or.inl rfl, ha⟩
        · exact Or.inr h
      · rintro (⟨hm, he, w2, (rfl | hw2), ha⟩ | h)
        · exact Or.inr (Or.inl ⟨hm, he, ha⟩)
        · exact Or.inl ⟨hm, he, w2, hw2, ha⟩
        · exact Or.inr (Or.inr h)

/-- Keys of the finalized mapping: exactly the non-excluded categories of
the definition that matched at least one valid pixel. -/
lemma promedios_isSome_iff (R : RasterPair) (categorias excl : List ℤ)
    (chunk : ℕ) (cat : ℤ) (hc : 0 < chunk) :
    (lookupAcc (promediosOf R categorias excl chunk) cat).isSome = true ↔
      (cat ∈ categorias ∧ cat ∉ excl ∧ matchedB R cat = true) := by
  have hmap : ∀ (acc : Acc),
      lookupAcc (acc.map fun kv =>
        (kv.1, if 0 < kv.2.length then
          some (kv.2.sum / (kv.2.length : ℚ)) else none)) cat =
        (lookupAcc acc cat).map fun l =>
          if 0 < l.length then some (l.sum / (l.length : ℚ)) else none := by
    intro acc
    induction acc with
    | nil => rfl
    | cons kv rest ih =>
        obtain ⟨k, l⟩ := kv
        by_cases hk : k = cat
        · simp [lookupAcc, hk]
        · simp [lookupAcc, hk, ih]
  have hiso : ∀ (o : Option (List ℚ)),
      (Option.map (fun l => if 0 < l.length then
        some (l.sum / (l.length : ℚ)) else none) o).isSome = o.isSome := by
    intro o
    cases o <;> rfl
  unfold promediosOf
  rw [hmap, hiso]
  unfold resultadosOf
  rw [lookupAcc_foldWins_isSome]
  rw [show (lookupAcc ([] : Acc) cat).isSome = false from rfl]
  simp only [Bool.false_eq_true, or_false]
  rw [exists_win_anyMask_iff hc]

lemma extendAcc_nonempty {acc : Acc} {k : ℤ} {vs : List ℚ}
    (hacc : ∀ kv ∈ acc, kv.2 ≠ []) (hvs : vs ≠ []) :
    ∀ kv ∈ extendAcc acc k vs, kv.2 ≠ [] := by
  induction acc with
  | nil =>
      intro kv hkv
      unfold extendAcc at hkv
      rw [List.mem_singleton] at hkv
      subst hkv
      exact hvs
  | cons kv0 rest ih =>
      obtain ⟨k', l⟩ := kv0
      intro kv hkv
      unfold extendAcc at hkv
      split_ifs at hkv with hk
      · rw [List.mem_cons] at hkv
        rcases hkv with rfl | hkv
        · simp [hvs]
        · exact hacc kv (List.mem_cons_of_mem _ hkv)
      · rw [List.mem_cons] at hkv
        rcases hkv with rfl | hkv
        · exact hacc _ (List.mem_cons_self _ _)
        · exact ih (fun x hx => hacc x (List.mem_cons_of_mem _ hx)) kv hkv

lemma stepCat_nonempty {R : RasterPair} {excl : List ℤ} {win : Win}
    {acc : Acc} {cat : ℤ} (hacc : ∀ kv ∈ acc, kv.2 ≠ []) :
    ∀ kv ∈ stepCat R excl win acc cat, kv.2 ≠ [] := by
  unfold stepCat
  split_ifs with h1 h2 h3
  · exact hacc
  · exact extendAcc_nonempty hacc (List.ne_nil_of_length_pos h3)
  · exact hacc
  · exact hacc

lemma stepWin_nonempty {R : RasterPair} {categorias excl : List ℤ}
    {win : Win} : ∀ {acc : Acc}, (∀ kv ∈ acc, kv.2 ≠ []) →
    ∀ kv ∈ stepWin R categorias excl acc win, kv.2 ≠ [] := by
  induction categorias with
  | nil =>
      intro acc hacc
      exact hacc
  | cons c' cs ih =>
      intro acc hacc
      exact ih (stepCat_nonempty hacc)

lemma resultados_nonempty (R : RasterPair) (categorias excl : List ℤ)
    (chunk : ℕ) :
    ∀ kv ∈ resultadosOf R categorias excl chunk, kv.2 ≠ [] := by
  unfold resultadosOf
  generalize partitionWins R.h R.w chunk = wins
  have hgen : ∀ (acc : Acc), (∀ kv ∈ acc, kv.2 ≠ []) →
      ∀ kv ∈ wins.foldl (stepWin R categorias excl) acc, kv.2 ≠ [] := by
    induction wins with
    | nil => intro acc hacc; exact hacc
    | cons win rest ih =>
        intro acc hacc
        exact ih _ (stepWin_nonempty hacc)
  exact hgen [] (by simp)

lemma lookupAcc_mem {α : Type} {acc : List (ℤ × α)} {cat : ℤ} {v : α}
    (h : lookupAcc acc cat = some v) : (cat, v) ∈ acc := by
  induction acc with
  | nil => cases h
  | cons kv rest ih =>
      obtain ⟨k, l⟩ := kv
      unfold lookupAcc at h
      split_ifs at h with hk
      · rw [Option.some_inj] at h
        subst hk
        subst h
        exact List.mem_cons_self _ _
      · exact List.mem_cons_of_mem _ (ih h)

/-- Every entry of the finalized mapping is the mean of the non-empty
sample list accumulated for that code (the `else: np.nan` branch of the
finalization loop is unreachable). -/
lemma promedios_mean_of_some (R : RasterPair) (categorias excl : List ℤ)
    (chunk : ℕ) (cat : ℤ) (v : Pix)
    (h : lookupAcc (promediosOf R categorias excl chunk) cat = some v) :
    ∃ l : List ℚ,
      lookupAcc (resultadosOf R categorias excl chunk) cat = some l ∧
        l ≠ [] ∧ v = some (l.sum / (l.length : ℚ)) := by
  have hmap : ∀ (acc : Acc),
      lookupAcc (acc.map fun kv =>
        (kv.1, if 0 < kv.2.length then
          some (kv.2.sum / (kv.2.length : ℚ)) else none)) cat =
        (lookupAcc acc cat).map fun l =>
          if 0 < l.length then some (l.sum / (l.length : ℚ)) else none := by
    intro acc
    induction acc with
    | nil => rfl
    | cons kv rest ih =>
        obtain ⟨k, l⟩ := kv
        by_cases hk : k = cat
        · simp [lookupAcc, hk]
        · simp [lookupAcc, hk, ih]
  unfold promediosOf at h
  rw [hmap] at h
  obtain ⟨l, hl, hv⟩ := Option.map_eq_some'.mp h
  have hne : l ≠ [] :=
    resultados_nonempty R categorias excl chunk (cat, l) (lookupAcc_mem hl)
  refine ⟨l, hl, hne, ?_⟩
  rw [← hv, if_pos (List.length_pos.mpr hne)]

/-- The full key/value discipline of `procesar_ndvi_por_categoria`'s
returned mapping claimed by C9. -/
def AccumulatorSpec (R : RasterPair) (categorias exclude : List ℤ)
    (chunk : ℕ) : Prop :=
  (∀ cat : ℤ,
    (lookupAcc (promediosOf R categorias exclude chunk) cat).isSome =
        true ↔
      (cat ∈ categorias ∧ cat ∉ exclude ∧ matchedB R cat = true)) ∧
  (∀ cat : ℤ, ∀ v : Pix,
    lookupAcc (promediosOf R categorias exclude chunk) cat = some v →
      ∃ l : List ℚ,
        lookupAcc (resultadosOf R categorias exclude chunk) cat =
            some l ∧
          l ≠ [] ∧ v = some (l.sum / (l.length : ℚ))) ∧
  (∀ cat : ℤ,
    lookupAcc (promediosOf R categorias exclude chunk) cat ≠
      some none) ∧
  (∀ kv ∈ resultadosOf R categorias exclude chunk, kv.2 ≠ [])

/-- **C9**: the mapping returned by `procesar_ndvi_por_categoria` has a
key exactly for each non-excluded category code that matched at least one
valid NDVI pixel; every value is the mean of a non-empty list of non-NaN
samples; the mapping itself never contains NaN (the zero-sample NaN
branch of the finalization loop is unreachable), so NaN for uncovered
categories can only come from the caller's `promedios.get(cat, np.nan)`
default. -/
theorem accumulator_keys_and_values (R : RasterPair)
    (categorias exclude : List ℤ) (chunk : ℕ) (hc : 0 < chunk) :
    AccumulatorSpec R categorias exclude chunk := by
  refine ⟨fun cat => promedios_isSome_iff R categorias exclude chunk cat hc,
    fun cat v => promedios_mean_of_some R categorias exclude chunk cat v,
    ?_, resultados_nonempty R categorias exclude chunk⟩
  intro cat hsome
  obtain ⟨l, _, _, hv⟩ :=
    promedios_mean_of_some R categorias exclude chunk cat none hsome
  cases hv

/-- The raster pair of the concrete accumulator examples: one row, two
columns; INTA categories `[1, 0]`, NDVI constant `5` (all valid), no
nodata sentinel.  Category `2` never matches any pixel. -/
def rasterEj : RasterPair :=
  { h := 1, w := 2,
    inta := fun _ c => if c = 0 then 1 else 0,
    ndvi := fun _ _ => some 5,
    nodata := none }

/-- Witness for `accumulator_keys_and_values` at the concrete raster
pair `rasterEj`, categories `[1, 2]`, no exclusions, chunk size 2. -/
theorem accumulator_keys_and_values_witness :
    0 < 2 ∧ AccumulatorSpec rasterEj [1, 2] [] 2 :=
  ⟨by norm_num, accumulator_keys_and_values rasterEj [1, 2] [] 2
    (by norm_num)⟩

/-- **C6, counterexample**: category `2` is in the category definition,
not excluded, and matches no pixel of `rasterEj`; the claim says the
returned mapping sends it to NaN, but the mapping has *no entry at all*
for it — the key is absent (`lookupAcc` yields `none`, not `some none`:
NaN is the model's `none` pixel, an absent key is `none` at the lookup
level). -/
theorem uncovered_category_absent_not_nan :
    (2 : ℤ) ∈ ([1, 2] : List ℤ) ∧ (2 : ℤ) ∉ ([] : List ℤ) ∧
      matchedB rasterEj 2 = false ∧
      lookupAcc (promediosOf rasterEj [1, 2] [] 2) 2 = none := by
  refine ⟨by norm_num, by norm_num, by decide, by decide⟩

/-- **C6, amended**: a category code that never matches a valid pixel is
*absent* from the returned mapping (no NaN entry and no exception); the
NaN the spec describes is supplied only by the caller's
`promedios.get(cat, np.nan)` lookup default, which indeed evaluates to
NaN for such a code. -/
theorem uncovered_category_nan_via_caller_default (R : RasterPair)
    (categorias exclude : List ℤ) (chunk : ℕ) (cat : ℤ)
    (hc : 0 < chunk) (hm : matchedB R cat = false) :
    lookupAcc (promediosOf R categorias exclude chunk) cat = none ∧
      promediosGet (promediosOf R categorias exclude chunk) cat = none := by
  have h1 : ¬ (lookupAcc (promediosOf R categorias exclude chunk)
      cat).isSome = true := by
    rw [promedios_isSome_iff R categorias exclude chunk cat hc]
    rintro ⟨_, _, hmm⟩
    rw [hm] at hmm
    cases hmm
  have h2 : lookupAcc (promediosOf R categorias exclude chunk) cat =
      none := by
    cases hl : lookupAcc (promediosOf R categorias exclude chunk) cat with
    | none => rfl
    | some v => rw [hl] at h1; exact absurd rfl h1
  refine ⟨h2, ?_⟩
  unfold promediosGet
  rw [h2]

/-- Witness for `uncovered_category_nan_via_caller_default` at
`rasterEj`, category `2`, chunk size 2. -/
theorem uncovered_category_nan_via_caller_default_witness :
    (0 < 2 ∧ matchedB rasterEj 2 = false) ∧
      lookupAcc (promediosOf rasterEj [1, 2] [] 2) 2 = none ∧
        promediosGet (promediosOf rasterEj [1, 2] [] 2) 2 = none :=
  ⟨⟨by norm_num, by decide⟩,
    uncovered_category_nan_via_caller_default rasterEj [1, 2] [] 2 2
      (by norm_num) (by decide)⟩

end AdeModelo
